import Mathlib

/-!
Shallow embedding of the `ukebook_helper` match-and-navigate engine
(`src/ukebook_helper/matcher.py`, `src/ukebook_helper/models.py` and the
navigation loop of `src/ukebook_helper/__main__.py`), together with
theorems settling the specification claims about it.
-/

namespace Ukebook

/-- `Song` from `models.py`: a song scraped from the website. -/
structure Song where
  title : String
  artist : String
  href : String
  deriving DecidableEq, Repr

/-- `InputSong` from `models.py`: one row of the operator's input list. -/
structure InputSong where
  title : String
  artist : String
  gema_nr : String
  leader : String
  deriving DecidableEq, Repr

/-- `Match` from `matcher.py`: a candidate pairing of a catalog label with
its `Song` and an integer similarity score. -/
structure Match where
  display_name : String
  song : Song
  similarity : Nat
  deriving DecidableEq, Repr

/-- Inner loop of the longest-common-subsequence length: `lcsGo f a bs`
computes the LCS length of `a :: as` against `bs`, where `f` computes the
LCS length of `as` against any list. -/
def lcsGo (f : List Char → Nat) (a : Char) : List Char → Nat
  | [] => 0
  | b :: bs => if a = b then 1 + f bs else max (lcsGo f a bs) (f (b :: bs))

/-- Length of a longest common subsequence of two character lists.  This is
the combinatorial core of `thefuzz`'s `fuzz.ratio` scorer used by
`matcher.py`: the indel (insert/delete-only Levenshtein) distance of `s`
and `t` is `s.length + t.length - 2 * lcsLen s t`. -/
def lcsLen : List Char → List Char → Nat
  | [], _ => 0
  | a :: as, bs => lcsGo (lcsLen as) a bs

/-- Indel edit distance (Levenshtein with insertions and deletions only,
equivalently substitutions at cost 2), as used by `fuzz.ratio`'s
normalized similarity. -/
def indelDist (s t : List Char) : Nat :=
  s.length + t.length - 2 * lcsLen s t

/-- Round `num / den` to the nearest integer, ties to even — the semantics
of Python's builtin `round`, which `thefuzz` applies to the floating-point
similarity before returning an `int`. -/
def roundHalfEven (num den : Nat) : Nat :=
  if 2 * (num % den) < den then num / den
  else if den < 2 * (num % den) then num / den + 1
  else if num / den % 2 = 0 then num / den else num / den + 1

/-- `fuzz.ratio` from `thefuzz` (rapidfuzz backend), as called at
`matcher.py:36`: `round(100 * (1 - indelDist / (len s + len t)))`, with the
convention that two empty strings score 100. It is case-sensitive and does
no normalization of its arguments. -/
def fuzzRatio (s t : String) : Nat :=
  if s.data.length + t.data.length = 0 then 100
  else
    roundHalfEven
      (100 * (s.data.length + t.data.length - indelDist s.data t.data))
      (s.data.length + t.data.length)

/-- The comparison string built at `matcher.py:31`:
`f"{input_song.title} - {input_song.artist}"`. -/
def searchString (input_song : InputSong) : String :=
  input_song.title ++ " - " ++ input_song.artist

/-- The sort key relation of `matcher.py:46`: compare matches by their
similarity score. -/
def simLE (a b : Match) : Prop :=
  a.similarity ≤ b.similarity

instance : DecidableRel simLE := fun a b => Nat.decLe a.similarity b.similarity

instance : IsTotal Match simLE := ⟨fun a b => Nat.le_total a.similarity b.similarity⟩

instance : IsTrans Match simLE := ⟨fun _ _ _ h h' => Nat.le_trans h h'⟩

/-- The `for display_name, song in available_songs.items()` accumulation of
`matcher.py:34-43`: score every catalog entry against the search string and
keep those at or above the threshold, in catalog iteration order.  The
catalog dictionary is embedded as an association list in insertion order. -/
def collectMatches (input_song : InputSong) (available_songs : List (String × Song))
    (threshold : Nat) : List Match :=
  available_songs.filterMap fun p =>
    let similarity := fuzzRatio (searchString input_song) p.1
    if threshold ≤ similarity then
      some ⟨p.1, p.2, similarity⟩
    else
      none

/-- `find_matches` from `matcher.py`: collect the candidates at or above
the threshold and return them sorted ascending by similarity (Python's
`sorted` is a stable sort; so is insertion sort with `simLE`). -/
def find_matches (input_song : InputSong) (available_songs : List (String × Song))
    (threshold : Nat := 60) : List Match :=
  List.insertionSort simLE (collectMatches input_song available_songs threshold)

theorem lcsLen_nil_left (bs : List Char) : lcsLen [] bs = 0 := rfl

theorem lcsLen_nil_right (as : List Char) : lcsLen as [] = 0 := by
  cases as <;> rfl

theorem lcsLen_cons_cons (a b : Char) (as bs : List Char) :
    lcsLen (a :: as) (b :: bs) =
      if a = b then 1 + lcsLen as bs
      else max (lcsLen (a :: as) bs) (lcsLen as (b :: bs)) := by
  rfl

theorem lcsLen_le_left : ∀ (as bs : List Char), lcsLen as bs ≤ as.length
  | [], _ => Nat.le_refl 0
  | _ :: as, [] => by
    rw [lcsLen_nil_right]
    exact Nat.zero_le _
  | a :: as, b :: bs => by
    rw [lcsLen_cons_cons]
    split
    · have := lcsLen_le_left as bs
      simpa [Nat.add_comm] using Nat.add_le_add_right this 1
    · apply max_le
      · exact lcsLen_le_left (a :: as) bs
      · exact Nat.le_trans (lcsLen_le_left as (b :: bs)) (Nat.le_succ _)
  termination_by as bs => as.length + bs.length

theorem lcsLen_le_right : ∀ (as bs : List Char), lcsLen as bs ≤ bs.length
  | [], _ => Nat.zero_le _
  | _ :: as, [] => by
    rw [lcsLen_nil_right]
    exact Nat.le_refl 0
  | a :: as, b :: bs => by
    rw [lcsLen_cons_cons]
    split
    · have := lcsLen_le_right as bs
      simpa [Nat.add_comm] using Nat.add_le_add_right this 1
    · apply max_le
      · exact Nat.le_trans (lcsLen_le_right (a :: as) bs) (Nat.le_succ _)
      · exact lcsLen_le_right as (b :: bs)
  termination_by as bs => as.length + bs.length

theorem lcsLen_comm : ∀ (as bs : List Char), lcsLen as bs = lcsLen bs as
  | [], bs => by rw [lcsLen_nil_left, lcsLen_nil_right]
  | _ :: _, [] => by rw [lcsLen_nil_left, lcsLen_nil_right]
  | a :: as, b :: bs => by
    rw [lcsLen_cons_cons, lcsLen_cons_cons]
    by_cases h : a = b
    · subst h
      simp [lcsLen_comm as bs]
    · rw [if_neg h, if_neg (fun hba => h hba.symm),
        lcsLen_comm (a :: as) bs, lcsLen_comm as (b :: bs), max_comm]
  termination_by as bs => as.length + bs.length

theorem lcsLen_self : ∀ as : List Char, lcsLen as as = as.length
  | [] => rfl
  | a :: as => by
    rw [lcsLen_cons_cons, if_pos rfl, lcsLen_self as, List.length_cons,
      Nat.add_comm]

theorem indelDist_comm (s t : List Char) : indelDist s t = indelDist t s := by
  unfold indelDist
  rw [lcsLen_comm, Nat.add_comm]

theorem indelDist_le_total (s t : List Char) :
    indelDist s t ≤ s.length + t.length :=
  Nat.sub_le _ _

theorem indelDist_self (s : List Char) : indelDist s s = 0 := by
  unfold indelDist
  rw [lcsLen_self]
  omega

/-- The half-even rounding of `num / den` is within half of the exact
quotient, expressed multiplied through by `2 * den`. -/
theorem roundHalfEven_close (num den : Nat) (hden : 0 < den) :
    den * (2 * roundHalfEven num den) ≤ 2 * num + den ∧
      2 * num ≤ den * (2 * roundHalfEven num den) + den := by
  obtain ⟨q, hq⟩ : ∃ q, num / den = q := ⟨_, rfl⟩
  obtain ⟨r, hrr⟩ : ∃ r, num % den = r := ⟨_, rfl⟩
  have hlt : r < den := hrr ▸ Nat.mod_lt _ hden
  have hmod : den * q + r = num := by
    rw [← hq, ← hrr]
    exact Nat.div_add_mod num den
  unfold roundHalfEven
  rw [hq, hrr]
  subst hmod
  split_ifs with h1 h2 h3 <;> constructor <;> nlinarith

theorem roundHalfEven_le (num den k : Nat) (hden : 0 < den)
    (h : num ≤ k * den) : roundHalfEven num den ≤ k := by
  obtain ⟨q, hq⟩ : ∃ q, num / den = q := ⟨_, rfl⟩
  obtain ⟨r, hrr⟩ : ∃ r, num % den = r := ⟨_, rfl⟩
  have hlt : r < den := hrr ▸ Nat.mod_lt _ hden
  have hmod : den * q + r = num := by
    rw [← hq, ← hrr]
    exact Nat.div_add_mod num den
  unfold roundHalfEven
  rw [hq, hrr]
  subst hmod
  have hqk : q ≤ k := by nlinarith
  split_ifs with h1 h2 h3
  · exact hqk
  · nlinarith
  · exact hqk
  · nlinarith

theorem fuzzRatio_comm (s t : String) : fuzzRatio s t = fuzzRatio t s := by
  unfold fuzzRatio
  rw [indelDist_comm, Nat.add_comm t.data.length]

theorem fuzzRatio_le_100 (s t : String) : fuzzRatio s t ≤ 100 := by
  unfold fuzzRatio
  split
  · exact Nat.le_refl _
  · next h =>
    apply roundHalfEven_le _ _ _ (Nat.pos_of_ne_zero h)
    have hs := Nat.sub_le (s.data.length + t.data.length) (indelDist s.data t.data)
    calc 100 * (s.data.length + t.data.length - indelDist s.data t.data)
        ≤ 100 * (s.data.length + t.data.length) := Nat.mul_le_mul_left _ hs
      _ = 100 * (s.data.length + t.data.length) := rfl

/-- When the strings are not both empty, the integer `fuzzRatio` is within
`1/2` of the exact real value `100 * (1 - d / total)` where `d` is the
indel edit distance and `total` the sum of lengths. -/
theorem fuzzRatio_close (s t : String)
    (h : s.data.length + t.data.length ≠ 0) :
    |(fuzzRatio s t : ℚ) -
        100 * (1 - (indelDist s.data t.data : ℚ) /
          ((s.data.length + t.data.length : ℕ) : ℚ))| ≤ 1 / 2 := by
  have hpos : 0 < s.data.length + t.data.length := Nat.pos_of_ne_zero h
  set T : ℕ := s.data.length + t.data.length with hT
  set d : ℕ := indelDist s.data t.data with hd
  have hdT : d ≤ T := indelDist_le_total _ _
  have hval : fuzzRatio s t = roundHalfEven (100 * (T - d)) T := by
    unfold fuzzRatio
    rw [if_neg h]
  obtain ⟨h1, h2⟩ := roundHalfEven_close (100 * (T - d)) T hpos
  set R : ℕ := roundHalfEven (100 * (T - d)) T with hR
  rw [hval]
  have hTQ : (0 : ℚ) < (T : ℚ) := by exact_mod_cast hpos
  have hexact : 100 * (1 - (d : ℚ) / (T : ℚ)) = ((100 * (T - d) : ℕ) : ℚ) / (T : ℚ) := by
    push_cast [Nat.cast_sub hdT]
    field_simp
  rw [hexact, abs_le]
  have h1Q : (T : ℚ) * (2 * R) ≤ 2 * ((100 * (T - d) : ℕ) : ℚ) + T := by
    exact_mod_cast h1
  have h2Q : 2 * ((100 * (T - d) : ℕ) : ℚ) ≤ (T : ℚ) * (2 * R) + T := by
    exact_mod_cast h2
  have hNdiv : ((100 * (T - d) : ℕ) : ℚ) / (T : ℚ) * (T : ℚ) =
      ((100 * (T - d) : ℕ) : ℚ) :=
    div_mul_cancel₀ _ (ne_of_gt hTQ)
  constructor
  · nlinarith [hNdiv, h2Q, hTQ]
  · nlinarith [hNdiv, h1Q, hTQ]

theorem mem_collectMatches {input_song : InputSong}
    {available_songs : List (String × Song)} {threshold : Nat} {m : Match} :
    m ∈ collectMatches input_song available_songs threshold ↔
      (m.display_name, m.song) ∈ available_songs ∧
        m.similarity = fuzzRatio (searchString input_song) m.display_name ∧
        threshold ≤ m.similarity := by
  unfold collectMatches
  rw [List.mem_filterMap]
  constructor
  · rintro ⟨p, hp, hf⟩
    by_cases h : threshold ≤ fuzzRatio (searchString input_song) p.1
    · rw [if_pos h] at hf
      obtain rfl := Option.some_injective _ hf
      exact ⟨hp, rfl, h⟩
    · rw [if_neg h] at hf
      exact absurd hf (Option.noConfusion)
  · rintro ⟨hp, hsim, hth⟩
    refine ⟨(m.display_name, m.song), hp, ?_⟩
    rw [if_pos (hsim ▸ hth)]
    cases m
    simp_all

theorem find_matches_perm (input_song : InputSong)
    (available_songs : List (String × Song)) (threshold : Nat) :
    List.Perm (find_matches input_song available_songs threshold)
      (collectMatches input_song available_songs threshold) :=
  List.perm_insertionSort simLE _

theorem mem_find_matches {input_song : InputSong}
    {available_songs : List (String × Song)} {threshold : Nat} {m : Match} :
    m ∈ find_matches input_song available_songs threshold ↔
      (m.display_name, m.song) ∈ available_songs ∧
        m.similarity = fuzzRatio (searchString input_song) m.display_name ∧
        threshold ≤ m.similarity := by
  rw [(find_matches_perm input_song available_songs threshold).mem_iff,
    mem_collectMatches]

theorem find_matches_sorted (input_song : InputSong)
    (available_songs : List (String × Song)) (threshold : Nat) :
    List.Sorted simLE (find_matches input_song available_songs threshold) :=
  List.sorted_insertionSort simLE _

/-- Inserting an element whose similarity is `v` with `orderedInsert simLE`
puts it in front of all existing elements of similarity `v`: every element
passed over has strictly smaller similarity. -/
theorem filter_orderedInsert_eq (v : Nat) (m : Match) (l : List Match)
    (hv : m.similarity = v) :
    (List.orderedInsert simLE m l).filter (fun x => x.similarity == v) =
      m :: l.filter (fun x => x.similarity == v) := by
  induction l with
  | nil => simp [hv]
  | cons b l ih =>
    by_cases hle : simLE m b
    · rw [List.orderedInsert_of_le simLE _ hle, List.filter_cons,
        List.filter_cons]
      simp [hv]
    · have hlt : b.similarity < m.similarity := by
        unfold simLE at hle
        omega
      have hbv : (b.similarity == v) = false := by
        simp only [beq_eq_false_iff_ne]
        omega
      rw [List.orderedInsert, if_neg hle, List.filter_cons, hbv,
        List.filter_cons, hbv]
      simpa using ih

/-- Inserting an element whose similarity is not `v` leaves the
similarity-`v` sublist unchanged. -/
theorem filter_orderedInsert_ne (v : Nat) (m : Match) (l : List Match)
    (hv : m.similarity ≠ v) :
    (List.orderedInsert simLE m l).filter (fun x => x.similarity == v) =
      l.filter (fun x => x.similarity == v) := by
  induction l with
  | nil => simp [hv]
  | cons b l ih =>
    by_cases hle : simLE m b
    · rw [List.orderedInsert_of_le simLE _ hle, List.filter_cons]
      simp [hv]
    · rw [List.orderedInsert, if_neg hle, List.filter_cons, List.filter_cons,
        ih]

/-- Stability of the insertion sort used by `find_matches`: for every score
value `v`, the candidates of score `v` appear in the sorted output in
exactly the order they had before sorting. -/
theorem filter_insertionSort (v : Nat) (l : List Match) :
    (List.insertionSort simLE l).filter (fun x => x.similarity == v) =
      l.filter (fun x => x.similarity == v) := by
  induction l with
  | nil => rfl
  | cons b l ih =>
    show (List.orderedInsert simLE b (List.insertionSort simLE l)).filter _ = _
    by_cases hv : b.similarity = v
    · rw [filter_orderedInsert_eq v b _ hv, ih, List.filter_cons]
      simp [hv]
    · rw [filter_orderedInsert_ne v b _ hv, ih, List.filter_cons]
      simp [hv]

theorem find_matches_length_le (input_song : InputSong)
    (available_songs : List (String × Song)) (threshold : Nat) :
    (find_matches input_song available_songs threshold).length ≤
      available_songs.length := by
  rw [(find_matches_perm input_song available_songs threshold).length_eq]
  exact List.length_filterMap_le _ _

/-- With duplicate-free catalog keys, at most one candidate with any given
display name occurs in the collected list. -/
theorem collectMatches_key_count (input_song : InputSong)
    (available_songs : List (String × Song)) (threshold : Nat) (k : String)
    (hnd : (available_songs.map Prod.fst).Nodup) :
    ((collectMatches input_song available_songs threshold).filter
      (fun m => m.display_name == k)).length ≤ 1 := by
  induction available_songs with
  | nil => simp [collectMatches]
  | cons p rest ih =>
    rw [List.map_cons, List.nodup_cons] at hnd
    obtain ⟨hk, hnd'⟩ := hnd
    have hrest : ∀ m ∈ collectMatches input_song rest threshold,
        m.display_name ∈ rest.map Prod.fst := by
      intro m hm
      obtain ⟨hmem, -, -⟩ := mem_collectMatches.mp hm
      exact List.mem_map.mpr ⟨(m.display_name, m.song), hmem, rfl⟩
    unfold collectMatches
    rw [List.filterMap_cons]
    split
    · exact ih hnd'
    · next m hf =>
      have hm : m.display_name = p.1 := by
        by_cases h : threshold ≤ fuzzRatio (searchString input_song) p.1
        · rw [if_pos h] at hf
          obtain rfl := Option.some_injective _ hf
          rfl
        · rw [if_neg h] at hf
          exact absurd hf (Option.noConfusion)
      rw [List.filter_cons]
      by_cases hmk : (m.display_name == k) = true
      · rw [if_pos hmk]
        have hpk : p.1 = k := by
          rw [← hm]
          exact eq_of_beq hmk
        have hzero : (collectMatches input_song rest threshold).filter
            (fun m => m.display_name == k) = [] := by
          rw [List.filter_eq_nil_iff]
          intro x hx
          have := hrest x hx
          simp only [beq_iff_eq]
          intro hxk
          exact hk (by rw [← hpk] at hxk; exact hxk ▸ this)
        rw [List.length_cons]
        have : collectMatches input_song rest threshold =
            List.filterMap (fun p =>
              if threshold ≤ fuzzRatio (searchString input_song) p.1 then
                some ⟨p.1, p.2, fuzzRatio (searchString input_song) p.1⟩
              else none) rest := rfl
        rw [← this, hzero]
        exact Nat.le_refl 1
      · rw [if_neg (by simpa using hmk)]
        have : collectMatches input_song rest threshold =
            List.filterMap (fun p =>
              if threshold ≤ fuzzRatio (searchString input_song) p.1 then
                some ⟨p.1, p.2, fuzzRatio (searchString input_song) p.1⟩
              else none) rest := rfl
        rw [← this]
        exact ih hnd'

/-- One item of the parsed input list (`read_input_list` in `models.py`
appends either an `InputSong` or the string `"Break"`; the mixed-type list
is embedded as a sum type). -/
inductive Entry where
  | song (s : InputSong)
  | breakMarker
  deriving DecidableEq, Repr

/-- One element of the `selected_songs` accumulator of `__main__.py`:
either `("break", None)` or `("song", selected)`. -/
inductive SelRecord where
  | breakRec
  | songRec (m : Match)
  deriving DecidableEq, Repr

/-- One operator answer, as returned by the three blocking prompts of
`ui.py`: `confirm_break() -> (take_break, go_back)`,
`confirm_action(...) -> bool`, and
`select_match(...) -> (Optional[Match], go_back)`.  A run of the loop is
driven by a script of such answers. -/
inductive Response where
  | breakResp (take : Bool) (goBack : Bool)
  | confirmResp (yes : Bool)
  | selectResp (sel : Option Match) (goBack : Bool)
  deriving DecidableEq, Repr

/-- The mutable state of the `while i < len(input_songs)` loop of
`__main__.py:114-179`: the integer cursor `i`, the `selected_songs`
accumulator, and the not-yet-consumed operator script.  `adv` is a ghost
counter incremented exactly where the source executes `i += 1`; it records
the number of forward advances for stating the outcome-count invariant. -/
structure LoopState where
  i : Int
  selected : List SelRecord
  script : List Response
  adv : Nat
  deriving DecidableEq, Repr

/-- Result of one loop iteration. -/
inductive StepResult where
  | next (s : LoopState)
  | finished (selected : List SelRecord)
  | fatal (selected : List SelRecord)
  | stuck (s : LoopState)
  | err (s : LoopState)
  deriving DecidableEq, Repr

/-- Python truthiness of the optional `break_url` config value
(`if not break_url` in `__main__.py:120` is taken both for a missing key
and for an empty string). -/
def truthy : Option String → Bool
  | none => false
  | some s => !s.isEmpty

/-- Python list indexing `l[i]`: negative indices count from the end;
out-of-range access is an error (`none`). -/
def pyGet (l : List Entry) (i : Int) : Option Entry :=
  if 0 ≤ i then l.get? i.toNat
  else if 0 ≤ (l.length : Int) + i then l.get? ((l.length : Int) + i).toNat
  else none

/-- One iteration of the navigation loop of `__main__.py:115-179`.
Announcements, screen clears and `webbrowser.open` calls are pure side
effects with no influence on the loop state and are omitted; the three
blocking prompts consume the head of the operator script (`stuck` when the
script is exhausted or its head answers a different prompt than the one
the source would show). -/
def step (break_url : Option String) (available_songs : List (String × Song))
    (input_songs : List Entry) (st : LoopState) : StepResult :=
  if st.i < (input_songs.length : Int) then
    match pyGet input_songs st.i with
    | none => .err st
    | some .breakMarker =>
      if !truthy break_url then
        .next ⟨st.i + 1, st.selected, st.script, st.adv + 1⟩
      else
        match st.script with
        | .breakResp take goBack :: rest =>
          if goBack then
            .next ⟨max 0 (st.i - 1), st.selected, rest, st.adv⟩
          else if take then
            .next ⟨st.i + 1, st.selected ++ [.breakRec], rest, st.adv + 1⟩
          else
            .next ⟨st.i + 1, st.selected, rest, st.adv + 1⟩
        | _ => .stuck st
    | some (.song entry) =>
      if (find_matches entry available_songs).isEmpty then
        match st.script with
        | .confirmResp yes :: rest =>
          if yes then
            .next ⟨st.i + 1, st.selected, rest, st.adv + 1⟩
          else
            .fatal st.selected
        | _ => .stuck st
      else
        match st.script with
        | .selectResp sel goBack :: rest =>
          if goBack then
            .next ⟨max 0 (st.i - 1), st.selected, rest, st.adv⟩
          else
            match sel with
            | some m =>
              .next ⟨st.i + 1, st.selected ++ [.songRec m], rest, st.adv + 1⟩
            | none =>
              .next ⟨st.i + 1, st.selected, rest, st.adv + 1⟩
        | _ => .stuck st
  else
    .finished st.selected

/-- Final result of a bounded run of the loop. -/
inductive RunResult where
  | finished (selected : List SelRecord)
  | fatal (selected : List SelRecord)
  | stuck (s : LoopState)
  | err (s : LoopState)
  | outOfFuel (s : LoopState)
  deriving DecidableEq, Repr

/-- Iterate `step` at most `fuel` times (the source loop has no bound; any
terminating run is reproduced by a large enough fuel). -/
def run (break_url : Option String) (available_songs : List (String × Song))
    (input_songs : List Entry) : Nat → LoopState → RunResult
  | 0, st => .outOfFuel st
  | fuel + 1, st =>
    match step break_url available_songs input_songs st with
    | .next st' => run break_url available_songs input_songs fuel st'
    | .finished sel => .finished sel
    | .fatal sel => .fatal sel
    | .stuck s => .stuck s
    | .err s => .err s

/-- The loop as entered from `main`: `selected_songs = []`, `i = 0`. -/
def runMain (break_url : Option String) (available_songs : List (String × Song))
    (input_songs : List Entry) (script : List Response) (fuel : Nat) :
    RunResult :=
  run break_url available_songs input_songs fuel ⟨0, [], script, 0⟩

/-- The one-iteration transition relation of the navigation loop. -/
def stepRel (break_url : Option String) (available_songs : List (String × Song))
    (input_songs : List Entry) (s t : LoopState) : Prop :=
  step break_url available_songs input_songs s = .next t

/-- Whether an operator answer carries the "go back" signal (the last
virtual option of `select_match` and the third option of
`confirm_break`). -/
def goBackSignal : Response → Bool
  | .breakResp _ goBack => goBack
  | .confirmResp _ => false
  | .selectResp _ goBack => goBack

/-- A rewind iteration: the loop consumed an operator answer carrying the
go-back signal. -/
def rewindStep (break_url : Option String)
    (available_songs : List (String × Song)) (input_songs : List Entry)
    (s t : LoopState) : Prop :=
  stepRel break_url available_songs input_songs s t ∧
    ∃ r rest, s.script = r :: rest ∧ goBackSignal r = true ∧ t.script = rest

theorem stepRel_elim {break_url : Option String}
    {available_songs : List (String × Song)} {input_songs : List Entry}
    {s t : LoopState} (h : stepRel break_url available_songs input_songs s t) :
    (t.i = s.i + 1 ∧ t.adv = s.adv + 1 ∧
      (t.selected = s.selected ∨ ∃ r, t.selected = s.selected ++ [r])) ∨
    (t.i = max 0 (s.i - 1) ∧ t.adv = s.adv ∧ t.selected = s.selected) := by
  unfold stepRel step at h
  repeat' split at h
  all_goals first
    | exact StepResult.noConfusion h
    | (injection h with h
       subst h
       left
       refine ⟨rfl, rfl, ?_⟩
       first
         | exact Or.inl rfl
         | exact Or.inr ⟨_, rfl⟩)
    | (injection h with h
       subst h
       right
       exact ⟨rfl, rfl, rfl⟩)

theorem rewindStep_effect {break_url : Option String}
    {available_songs : List (String × Song)} {input_songs : List Entry}
    {s t : LoopState}
    (h : rewindStep break_url available_songs input_songs s t) :
    t.i = max 0 (s.i - 1) ∧ t.selected = s.selected ∧ t.adv = s.adv := by
  obtain ⟨hstep, r, rest, hscript, hsig, htail⟩ := h
  unfold stepRel step at hstep
  rw [hscript] at hstep
  cases r with
  | confirmResp yes => exact absurd hsig (by simp [goBackSignal])
  | breakResp take gb =>
    simp only [goBackSignal] at hsig
    subst hsig
    repeat' split at hstep
    all_goals first
      | exact StepResult.noConfusion hstep
      | (injection hstep with hstep
         subst hstep
         exact ⟨rfl, rfl, rfl⟩)
      | (injection hstep with hstep
         subst hstep
         simp_all)
  | selectResp sel gb =>
    simp only [goBackSignal] at hsig
    subst hsig
    repeat' split at hstep
    all_goals first
      | exact StepResult.noConfusion hstep
      | (injection hstep with hstep
         subst hstep
         exact ⟨rfl, rfl, rfl⟩)
      | (injection hstep with hstep
         subst hstep
         simp_all)

theorem stepRel_i_nonneg {break_url : Option String}
    {available_songs : List (String × Song)} {input_songs : List Entry}
    {s t : LoopState} (h : stepRel break_url available_songs input_songs s t)
    (h0 : 0 ≤ s.i) : 0 ≤ t.i := by
  rcases stepRel_elim h with ⟨hi, -, -⟩ | ⟨hi, -, -⟩
  · omega
  · rw [hi]
    exact le_max_left 0 _

theorem reach_i_nonneg {break_url : Option String}
    {available_songs : List (String × Song)} {input_songs : List Entry}
    {s t : LoopState}
    (h : Relation.ReflTransGen
      (stepRel break_url available_songs input_songs) s t)
    (h0 : 0 ≤ s.i) : 0 ≤ t.i := by
  induction h with
  | refl => exact h0
  | tail _ hstep ih => exact stepRel_i_nonneg hstep ih

theorem rewind_chain_at_zero {break_url : Option String}
    {available_songs : List (String × Song)} {input_songs : List Entry}
    {s t : LoopState}
    (h : Relation.ReflTransGen
      (rewindStep break_url available_songs input_songs) s t)
    (h0 : s.i = 0) : t.i = 0 := by
  induction h with
  | refl => exact h0
  | tail _ hstep ih =>
    obtain ⟨hi, -, -⟩ := rewindStep_effect hstep
    rw [hi, ih]
    rfl

theorem stepRel_count_invariant {break_url : Option String}
    {available_songs : List (String × Song)} {input_songs : List Entry}
    {s t : LoopState} (h : stepRel break_url available_songs input_songs s t)
    (hc : s.selected.length ≤ s.adv) : t.selected.length ≤ t.adv := by
  rcases stepRel_elim h with ⟨-, hadv, hsel | ⟨r, hsel⟩⟩ | ⟨-, hadv, hsel⟩
  · rw [hsel, hadv]
    omega
  · rw [hsel, hadv, List.length_append, List.length_singleton]
    omega
  · rw [hsel, hadv]
    exact hc

theorem reach_count_invariant {break_url : Option String}
    {available_songs : List (String × Song)} {input_songs : List Entry}
    {s t : LoopState}
    (h : Relation.ReflTransGen
      (stepRel break_url available_songs input_songs) s t)
    (hc : s.selected.length ≤ s.adv) : t.selected.length ≤ t.adv := by
  induction h with
  | refl => exact hc
  | tail _ hstep ih => exact stepRel_count_invariant hstep ih

theorem stepRel_append_only {break_url : Option String}
    {available_songs : List (String × Song)} {input_songs : List Entry}
    {s t : LoopState} (h : stepRel break_url available_songs input_songs s t) :
    t.selected = s.selected ∨
      (∃ r, t.selected = s.selected ++ [r]) ∧ t.i = s.i + 1 ∧
        t.adv = s.adv + 1 := by
  rcases stepRel_elim h with ⟨hi, hadv, hsel | hsel⟩ | ⟨-, -, hsel⟩
  · exact Or.inl hsel
  · exact Or.inr ⟨hsel, hi, hadv⟩
  · exact Or.inl hsel

theorem step_fatal_elim {break_url : Option String}
    {available_songs : List (String × Song)} {input_songs : List Entry}
    {s : LoopState} {sel : List SelRecord}
    (h : step break_url available_songs input_songs s = .fatal sel) :
    sel = s.selected ∧ s.i < (input_songs.length : Int) ∧
      ∃ e rest, pyGet input_songs s.i = some (.song e) ∧
        find_matches e available_songs = [] ∧
        s.script = .confirmResp false :: rest := by
  unfold step at h
  repeat' split at h
  all_goals try exact StepResult.noConfusion h
  injection h with h
  subst h
  rename_i e hpy hempty x yes rest hscript hyes
  have hlt : s.i < (input_songs.length : Int) := by assumption
  simp only [Bool.not_eq_true] at hyes
  subst hyes
  exact ⟨rfl, hlt, e, rest, hpy, List.isEmpty_iff.mp hempty, hscript⟩

theorem step_fatal_intro {break_url : Option String}
    {available_songs : List (String × Song)} {input_songs : List Entry}
    {s : LoopState} {e : InputSong} {rest : List Response}
    (hlt : s.i < (input_songs.length : Int))
    (hpy : pyGet input_songs s.i = some (.song e))
    (hempty : find_matches e available_songs = [])
    (hscript : s.script = .confirmResp false :: rest) :
    step break_url available_songs input_songs s = .fatal s.selected := by
  unfold step
  rw [if_pos hlt, hpy, hscript]
  simp [hempty]

theorem run_fatal_immediate {break_url : Option String}
    {available_songs : List (String × Song)} {input_songs : List Entry}
    {s : LoopState} {sel : List SelRecord} (fuel : Nat)
    (h : step break_url available_songs input_songs s = .fatal sel) :
    run break_url available_songs input_songs (fuel + 1) s = .fatal sel := by
  unfold run
  rw [h]

/-- A go-back issued at the item after a destinationless break: the rewind
lands on the break, which on the very next pass silently auto-advances the
cursor back to where the go-back was issued. -/
theorem goback_over_destinationless_break {break_url : Option String}
    {available_songs : List (String × Song)} {input_songs : List Entry}
    {k : Int} {e : InputSong} {x : Option Match} {sel : List SelRecord}
    {rest : List Response} {adv : Nat}
    (hurl : truthy break_url = false)
    (hk0 : 0 ≤ k)
    (hlen : k + 1 < (input_songs.length : Int))
    (hbrk : pyGet input_songs k = some .breakMarker)
    (hsong : pyGet input_songs (k + 1) = some (.song e))
    (hne : find_matches e available_songs ≠ []) :
    stepRel break_url available_songs input_songs
        ⟨k + 1, sel, .selectResp x true :: rest, adv⟩ ⟨k, sel, rest, adv⟩ ∧
      stepRel break_url available_songs input_songs
        ⟨k, sel, rest, adv⟩ ⟨k + 1, sel, rest, adv + 1⟩ := by
  constructor
  · show step break_url available_songs input_songs _ = _
    unfold step
    rw [if_pos hlen]
    simp only
    rw [hsong]
    simp only [List.isEmpty_iff, hne, if_false, if_true]
    congr 2
    omega
  · show step break_url available_songs input_songs _ = _
    unfold step
    rw [if_pos (by omega : k < (input_songs.length : Int)), hbrk, hurl]
    simp

theorem lookup_of_mem_nodup {c : List (String × Song)} {k : String} {s : Song}
    (hnd : (c.map Prod.fst).Nodup) (hm : (k, s) ∈ c) :
    c.lookup k = some s := by
  induction c with
  | nil => cases hm
  | cons p rest ih =>
    obtain ⟨k', s'⟩ := p
    rw [List.map_cons, List.nodup_cons] at hnd
    obtain ⟨hk, hnd'⟩ := hnd
    rcases List.mem_cons.mp hm with heq | hmem
    · obtain ⟨rfl, rfl⟩ := Prod.mk.injEq .. ▸ heq
      simp [List.lookup]
    · have hne : k ≠ k' := by
        rintro rfl
        exact hk (List.mem_map.mpr ⟨(k, s), hmem, rfl⟩)
      have hbeq : (k == k') = false := by
        simpa using hne
      simp [List.lookup, hbeq]
      exact ih hnd' hmem

/-! Concrete fixtures used by the scenario theorems and witnesses below. -/

def sB : Song := ⟨"A", "B", "/songs/b"⟩

def sC : Song := ⟨"A", "C", "/songs/c"⟩

/-- A two-entry catalog whose labels score 100 against the matching search
string and 80 against the other one. -/
def demoCatalog : List (String × Song) := [("A - B", sB), ("A - C", sC)]

def eAB : InputSong := ⟨"A", "B", "1", "Lena"⟩

def eAC : InputSong := ⟨"A", "C", "2", "Miro"⟩

def mB100 : Match := ⟨"A - B", sB, 100⟩

def mC80 : Match := ⟨"A - C", sC, 80⟩

def mB80 : Match := ⟨"A - B", sB, 80⟩

def mC100 : Match := ⟨"A - C", sC, 100⟩

/-- C1 counterexample: in the run where the operator completes indices 0
and 1, goes back at index 2, and then completes indices 1 and 2, the final
outcome list still contains index 1's first record (the `mC100` record):
nothing was discarded on rewind, so there are four records — one per
forward completion — not the three the claim predicts. -/
theorem c1_rewind_truncation_refuted :
    runMain none demoCatalog [.song eAB, .song eAC, .song eAB]
        [.selectResp (some mB100) false, .selectResp (some mC100) false,
          .selectResp none true, .selectResp (some mB80) false,
          .selectResp (some mB100) false] 7 =
      .finished [.songRec mB100, .songRec mC100, .songRec mB80,
        .songRec mB100] ∧
    SelRecord.songRec mC100 ∈
      ([.songRec mB100, .songRec mC100, .songRec mB80, .songRec mB100] :
        List SelRecord) ∧
    ([.songRec mB100, .songRec mC100, .songRec mB80, .songRec mB100] :
      List SelRecord).length ≠ 3 := by
  decide

/-- C1 (corrected): a go-back never discards a selection record — the
outcome list is append-only even across rewinds.  In the scenario where
the operator goes back at setlist index 2 and then completes index 1
normally, the final outcome list keeps index 1's prior record next to its
replacement: one record per forward completion, repeats included. -/
theorem c1_goback_appends_nothing :
    (∀ (break_url : Option String) (available_songs : List (String × Song))
        (input_songs : List Entry) (s t : LoopState),
        rewindStep break_url available_songs input_songs s t →
          t.selected = s.selected) ∧
    runMain none demoCatalog [.song eAB, .song eAC, .song eAB]
        [.selectResp (some mB100) false, .selectResp (some mC100) false,
          .selectResp none true, .selectResp (some mB80) false,
          .selectResp (some mB100) false] 7 =
      .finished [.songRec mB100, .songRec mC100, .songRec mB80,
        .songRec mB100] :=
  ⟨fun _ _ _ _ _ h => (rewindStep_effect h).2.1, by decide⟩

/-- Witness for C1: the scenario's go-back step taken at cursor 2 leaves
the outcome list untouched. -/
theorem c1_goback_appends_nothing_witness :
    (⟨1, [], [], 0⟩ : LoopState).selected =
      (⟨2, [], [Response.selectResp none true], 0⟩ : LoopState).selected :=
  c1_goback_appends_nothing.1 none demoCatalog
    [.song eAB, .song eAC, .song eAB]
    ⟨2, [], [.selectResp none true], 0⟩ ⟨1, [], [], 0⟩
    ⟨rfl, .selectResp none true, [], rfl, rfl, rfl⟩

/-- C2 counterexample: on `[Song, Break, Song]` with no break destination,
the go-back issued at index 2 moves the cursor to the Break at index 1,
but the next pass silently auto-advances it back to index 2: the next
prompt shown to the operator is at index 2, not at index 0 = k - 1 as the
claim states. -/
theorem c2_rewind_by_two_refuted :
    step none demoCatalog [.song eAB, .breakMarker, .song eAC]
        ⟨2, [], [.selectResp none true], 0⟩ = .next ⟨1, [], [], 0⟩ ∧
    step none demoCatalog [.song eAB, .breakMarker, .song eAC]
        ⟨1, [], [], 0⟩ = .next ⟨2, [], [], 1⟩ ∧
    step none demoCatalog [.song eAB, .breakMarker, .song eAC]
        ⟨2, [], [], 1⟩ = .stuck ⟨2, [], [], 1⟩ ∧
    (2 : Int) ≠ 0 := by
  decide

/-- C2 (corrected): with no break destination configured and a Break at
index k, a single go-back issued at the song at index k + 1 sets the
cursor to k, and on the same pass the destinationless Break auto-advances
— forward — before the operator sees anything, so the next item presented
is the item at index k + 1 again: the go-back is effectively a no-op, not
a rewind by two. -/
theorem c2_goback_cancelled_by_break
    (break_url : Option String) (available_songs : List (String × Song))
    (input_songs : List Entry) (k : Int) (e : InputSong) (x : Option Match)
    (sel : List SelRecord) (rest : List Response) (adv : Nat)
    (hurl : truthy break_url = false) (hk0 : 0 ≤ k)
    (hlen : k + 1 < (input_songs.length : Int))
    (hbrk : pyGet input_songs k = some .breakMarker)
    (hsong : pyGet input_songs (k + 1) = some (.song e))
    (hne : find_matches e available_songs ≠ []) :
    stepRel break_url available_songs input_songs
        ⟨k + 1, sel, .selectResp x true :: rest, adv⟩ ⟨k, sel, rest, adv⟩ ∧
      stepRel break_url available_songs input_songs
        ⟨k, sel, rest, adv⟩ ⟨k + 1, sel, rest, adv + 1⟩ :=
  goback_over_destinationless_break hurl hk0 hlen hbrk hsong hne

/-- Witness for C2: the corrected behaviour on the concrete
`[Song, Break, Song]` setlist with the Break at index 1. -/
theorem c2_goback_cancelled_by_break_witness :
    stepRel none demoCatalog [.song eAB, .breakMarker, .song eAC]
        ⟨(1 : Int) + 1, [], .selectResp none true :: [], 0⟩
        ⟨1, [], [], 0⟩ ∧
      stepRel none demoCatalog [.song eAB, .breakMarker, .song eAC]
        ⟨1, [], [], 0⟩ ⟨(1 : Int) + 1, [], [], 0 + 1⟩ :=
  c2_goback_cancelled_by_break none demoCatalog
    [.song eAB, .breakMarker, .song eAC] 1 eAC none [] [] 0
    (by decide) (by decide) (by decide) (by decide) (by decide) (by decide)

/-- C3: every candidate returned by `find_matches` scores at least the
threshold, and no catalog entry whose label scores below the threshold
against the comparison string ever appears in the returned list. -/
theorem c3_threshold_property :
    ∀ (e : InputSong) (c : List (String × Song)) (th : Nat),
      ∀ m ∈ find_matches e c th,
        th ≤ m.similarity ∧
          ∀ p ∈ c, fuzzRatio (searchString e) p.1 < th →
            m.display_name ≠ p.1 := by
  intro e c th m hm
  obtain ⟨hmem, hsim, hth⟩ := mem_find_matches.mp hm
  refine ⟨hth, fun p hp hlt hname => ?_⟩
  rw [hname] at hsim
  omega

/-- Witness for C3 at a concrete catalog: the 80-scoring candidate for
`eAB` is at or above the default threshold 60 and avoids every
below-threshold label. -/
theorem c3_threshold_property_witness :
    60 ≤ mC80.similarity ∧
      ∀ p ∈ demoCatalog, fuzzRatio (searchString eAB) p.1 < 60 →
        mC80.display_name ≠ p.1 :=
  c3_threshold_property eAB demoCatalog 60 mC80 (by decide)

/-- C4: the list returned by `find_matches` is non-decreasing in
similarity, and for every score value the candidates of that score appear
in exactly the catalog-iteration order in which they were collected
(stability of the sort). -/
theorem c4_ordering_stability :
    ∀ (e : InputSong) (c : List (String × Song)) (th : Nat),
      List.Sorted simLE (find_matches e c th) ∧
        ∀ v, (find_matches e c th).filter (fun m => m.similarity == v) =
          (collectMatches e c th).filter (fun m => m.similarity == v) :=
  fun e c th =>
    ⟨find_matches_sorted e c th, fun v => filter_insertionSort v _⟩

/-- C5: every state reachable from a state with a non-negative cursor has
a non-negative cursor, and a chain of go-back iterations starting at
cursor 0 leaves the cursor at 0. -/
theorem c5_rewind_floor :
    (∀ (break_url : Option String) (available_songs : List (String × Song))
        (input_songs : List Entry) (s t : LoopState),
        Relation.ReflTransGen
            (stepRel break_url available_songs input_songs) s t →
          0 ≤ s.i → 0 ≤ t.i) ∧
    (∀ (break_url : Option String) (available_songs : List (String × Song))
        (input_songs : List Entry) (s t : LoopState),
        Relation.ReflTransGen
            (rewindStep break_url available_songs input_songs) s t →
          s.i = 0 → t.i = 0) :=
  ⟨fun _ _ _ _ _ h h0 => reach_i_nonneg h h0,
    fun _ _ _ _ _ h h0 => rewind_chain_at_zero h h0⟩

/-- Witness for C5: two consecutive go-backs issued at cursor 0 on a
one-song setlist leave the cursor at 0. -/
theorem c5_rewind_floor_witness :
    (0 : Int) ≤ LoopState.i ⟨0, [], [], 0⟩ ∧
      LoopState.i ⟨0, [], [], 0⟩ = 0 :=
  ⟨c5_rewind_floor.1 none demoCatalog [.song eAB]
      ⟨0, [], [.selectResp none true, .selectResp none true], 0⟩
      ⟨0, [], [], 0⟩
      (Relation.ReflTransGen.tail
        (Relation.ReflTransGen.tail Relation.ReflTransGen.refl rfl) rfl)
      (by decide),
    c5_rewind_floor.2 none demoCatalog [.song eAB]
      ⟨0, [], [.selectResp none true, .selectResp none true], 0⟩
      ⟨0, [], [], 0⟩
      (Relation.ReflTransGen.tail
        (Relation.ReflTransGen.tail Relation.ReflTransGen.refl
          ⟨rfl, .selectResp none true, [.selectResp none true], rfl, rfl,
            rfl⟩)
        ⟨rfl, .selectResp none true, [], rfl, rfl, rfl⟩)
      rfl⟩

/-- C6: along every run the number of recorded outcomes never exceeds the
number of forward cursor advances, and any iteration that changes the
outcome list appends exactly one record while advancing the cursor — a
go-back or skip iteration never appends. -/
theorem c6_outcome_count_invariant :
    (∀ (break_url : Option String) (available_songs : List (String × Song))
        (input_songs : List Entry) (s t : LoopState),
        Relation.ReflTransGen
            (stepRel break_url available_songs input_songs) s t →
          s.selected.length ≤ s.adv → t.selected.length ≤ t.adv) ∧
    (∀ (break_url : Option String) (available_songs : List (String × Song))
        (input_songs : List Entry) (s t : LoopState),
        stepRel break_url available_songs input_songs s t →
          t.selected ≠ s.selected →
          ∃ r, t.selected = s.selected ++ [r] ∧ t.i = s.i + 1 ∧
            t.adv = s.adv + 1) := by
  constructor
  · exact fun _ _ _ _ _ h hc => reach_count_invariant h hc
  · intro break_url available_songs input_songs s t h hne
    rcases stepRel_append_only h with hsel | ⟨⟨r, hsel⟩, hi, hadv⟩
    · exact absurd hsel hne
    · exact ⟨r, hsel, hi, hadv⟩

/-- Witness for C6: after one selecting iteration from the initial state
the invariant holds, and that iteration appended exactly one record while
advancing. -/
theorem c6_outcome_count_invariant_witness :
    ((⟨1, [.songRec mB100], [], 1⟩ : LoopState).selected.length ≤
      (⟨1, [.songRec mB100], [], 1⟩ : LoopState).adv) ∧
    ∃ r, ([.songRec mB100] : List SelRecord) = [] ++ [r] ∧
      (1 : Int) = 0 + 1 ∧ (1 : Nat) = 0 + 1 :=
  ⟨c6_outcome_count_invariant.1 none demoCatalog [.song eAB]
      ⟨0, [], [.selectResp (some mB100) false], 0⟩
      ⟨1, [.songRec mB100], [], 1⟩
      (Relation.ReflTransGen.tail Relation.ReflTransGen.refl rfl)
      (by decide),
    c6_outcome_count_invariant.2 none demoCatalog [.song eAB]
      ⟨0, [], [.selectResp (some mB100) false], 0⟩
      ⟨1, [.songRec mB100], [], 1⟩ rfl (by decide)⟩

/-- C7: with no break destination configured, the setlist
`[Song A, Break, Song B]` processed with no go-backs and a match chosen at
each song yields exactly the two song records, A's then B's: the Break is
skipped silently with no prompt and no record. -/
theorem c7_destinationless_break_invisible :
    runMain none demoCatalog [.song eAB, .breakMarker, .song eAC]
        [.selectResp (some mB100) false, .selectResp (some mC100) false]
        5 =
      .finished [.songRec mB100, .songRec mC100] := by
  decide

/-- C8: an iteration aborts the whole run (the `sys.exit(1)` path) exactly
when the current item is a song with no matches and the operator declines
the skip confirmation; in that case the run function returns immediately
with the outcomes accumulated so far, processing no further items. -/
theorem c8_fatal_only_declined_skip :
    (∀ (break_url : Option String) (available_songs : List (String × Song))
        (input_songs : List Entry) (s : LoopState) (sel : List SelRecord),
        step break_url available_songs input_songs s = .fatal sel →
          sel = s.selected ∧ s.i < (input_songs.length : Int) ∧
            ∃ e rest, pyGet input_songs s.i = some (.song e) ∧
              find_matches e available_songs = [] ∧
              s.script = .confirmResp false :: rest) ∧
    (∀ (break_url : Option String) (available_songs : List (String × Song))
        (input_songs : List Entry) (s : LoopState) (e : InputSong)
        (rest : List Response),
        s.i < (input_songs.length : Int) →
          pyGet input_songs s.i = some (.song e) →
          find_matches e available_songs = [] →
          s.script = .confirmResp false :: rest →
          step break_url available_songs input_songs s = .fatal s.selected) ∧
    (∀ (break_url : Option String) (available_songs : List (String × Song))
        (input_songs : List Entry) (fuel : Nat) (s : LoopState)
        (sel : List SelRecord),
        step break_url available_songs input_songs s = .fatal sel →
          run break_url available_songs input_songs (fuel + 1) s =
            .fatal sel) :=
  ⟨fun _ _ _ _ _ h => step_fatal_elim h,
    fun _ _ _ _ _ _ hlt hpy hempty hscript =>
      step_fatal_intro hlt hpy hempty hscript,
    fun _ _ _ fuel _ _ h => run_fatal_immediate fuel h⟩

/-- Witness for C8: with an empty catalog, declining the skip at the first
song makes the very next step fatal and the run stops at once with the
empty outcome list. -/
theorem c8_fatal_only_declined_skip_witness :
    step none ([] : List (String × Song)) [.song eAB]
        ⟨0, [], [.confirmResp false], 0⟩ = .fatal [] ∧
    run none ([] : List (String × Song)) [.song eAB] 1
        ⟨0, [], [.confirmResp false], 0⟩ = .fatal [] :=
  ⟨c8_fatal_only_declined_skip.2.1 none [] [.song eAB]
      ⟨0, [], [.confirmResp false], 0⟩ eAB []
      (by decide) (by decide) (by decide) rfl,
    c8_fatal_only_declined_skip.2.2 none [] [.song eAB] 0
      ⟨0, [], [.confirmResp false], 0⟩ [] (by decide)⟩

/-- C9: the similarity used by `find_matches` is `fuzzRatio` between the
comparison string built as title, a spaced hyphen, then artist, and the
catalog label; `fuzzRatio` is symmetric, bounded by 100 (it is a natural
number, hence at least 0), within rounding distance one half of
`100 * (1 - d / total)` for the indel edit distance `d`, and
case-sensitive — no case or whitespace normalization is applied. -/
theorem c9_similarity_score_spec :
    (∀ (e : InputSong) (c : List (String × Song)) (th : Nat),
        ∀ m ∈ find_matches e c th,
          m.similarity =
            fuzzRatio (e.title ++ " - " ++ e.artist) m.display_name) ∧
    (∀ s t : String, fuzzRatio s t = fuzzRatio t s) ∧
    (∀ s t : String, fuzzRatio s t ≤ 100) ∧
    (∀ s t : String, s.data.length + t.data.length ≠ 0 →
        |(fuzzRatio s t : ℚ) -
            100 * (1 - (indelDist s.data t.data : ℚ) /
              ((s.data.length + t.data.length : ℕ) : ℚ))| ≤ 1 / 2) ∧
    fuzzRatio "a" "A" = 0 ∧ fuzzRatio "a" "a" = 100 := by
  refine ⟨?_, fuzzRatio_comm, fuzzRatio_le_100, fuzzRatio_close,
    by decide, by decide⟩
  intro e c th m hm
  exact (mem_find_matches.mp hm).2.1

/-- Witness for C9: the 80-scoring candidate's stored similarity equals
the recomputed ratio, and the rounding bound holds on a concrete pair of
differently-cased strings. -/
theorem c9_similarity_score_spec_witness :
    mC80.similarity =
      fuzzRatio (eAB.title ++ " - " ++ eAB.artist) mC80.display_name ∧
    |(fuzzRatio "a" "A" : ℚ) -
        100 * (1 - (indelDist "a".data "A".data : ℚ) /
          (("a".data.length + "A".data.length : ℕ) : ℚ))| ≤ 1 / 2 :=
  ⟨c9_similarity_score_spec.1 eAB demoCatalog 60 mC80 (by decide),
    c9_similarity_score_spec.2.2.2.1 "a" "A" (by decide)⟩

/-- C10: every returned match is drawn from the catalog — its pair of
display name and song is an entry of the association list, and under
duplicate-free keys the song is exactly what lookup of the display name
yields; each key contributes at most one match, and the result never has
more elements than the catalog. -/
theorem c10_matches_from_catalog :
    ∀ (e : InputSong) (c : List (String × Song)) (th : Nat),
      ((c.map Prod.fst).Nodup →
        (∀ m ∈ find_matches e c th,
          c.lookup m.display_name = some m.song) ∧
        ∀ k, ((find_matches e c th).filter
            (fun m => m.display_name == k)).length ≤ 1) ∧
      (∀ m ∈ find_matches e c th, (m.display_name, m.song) ∈ c) ∧
      (find_matches e c th).length ≤ c.length := by
  intro e c th
  refine ⟨fun hnd => ⟨?_, ?_⟩, ?_, find_matches_length_le e c th⟩
  · intro m hm
    exact lookup_of_mem_nodup hnd (mem_find_matches.mp hm).1
  · intro k
    have hperm :=
      (find_matches_perm e c th).filter (fun m => m.display_name == k)
    rw [hperm.length_eq]
    exact collectMatches_key_count e c th k hnd
  · intro m hm
    exact (mem_find_matches.mp hm).1

/-- Witness for C10: on the concrete duplicate-free catalog, lookup of a
returned match's display name gives back its song, and the key-count
bound holds for one key. -/
theorem c10_matches_from_catalog_witness :
    demoCatalog.lookup mC80.display_name = some mC80.song ∧
      ((find_matches eAB demoCatalog 60).filter
        (fun m => m.display_name == "A - B")).length ≤ 1 :=
  ⟨((c10_matches_from_catalog eAB demoCatalog 60).1 (by decide)).1 mC80
      (by decide),
    ((c10_matches_from_catalog eAB demoCatalog 60).1 (by decide)).2
      "A - B"⟩

end Ukebook
